import Mathlib

/-! A verification development for the `cached_method` library
(src/cached_method.py): a per-instance, weakly-owned memoizing cache
binder built on `functools.lru_cache`.

Modelling choices (shallow embedding):
* Python object identity is modelled by natural-number ids; functions are
  identified by the id stored in the binder's `func` field (Python compares
  operations with `is`, i.e. object identity).
* Argument tuples (including the `typed` key construction) are abstracted
  into an arbitrary key type `K` with decidable equality; results live in `V`.
* The underlying operation is a pure function `op : Nat → K → Except E V`
  taking the owning instance's id (the bound `self`) and the argument key;
  `Except.error` models the operation raising an exception.
* `functools.lru_cache` (a stdlib collaborator, not part of src/) is
  modelled by a recency-ordered association list, most recent first: a hit
  moves the entry to the front, a miss computes, inserts at the front and
  truncates to `capacity`; exceptions are never cached.  This mirrors
  CPython's documented strict-LRU behaviour.
* `weakref.WeakMethod` (host primitive) is modelled by storing only the
  owner's id together with a liveness environment `alive : Nat → Bool`;
  resolving the weak handle consults `alive`.
* An instance's `__dict__` is an association list of memoizers under
  attribute names plus a `writable` flag (`False` models mappingproxy-like
  stores that raise `TypeError` on item assignment); an instance without
  `__dict__` (slots) has `dict = none`.
* Python exceptions are modelled as `Except.error` of an `Err` value whose
  constructors carry the data the real error messages interpolate
  (the instance's type name and the bound attribute name).
-/

namespace CachedMethod

/-- The error taxonomy of the library.  Each constructor corresponds to one
`raise` site in src/cached_method.py (or to pass-through of the wrapped
operation's own error, `opError`).  `noAttributeStore` and
`immutableAttributeStore` carry the instance's type name and the bound
attribute name, as the real `TypeError` messages do. -/
inductive Err (E : Type) where
  | unboundAccess : Err E
  | noAttributeStore (typeName attrName : String) : Err E
  | immutableAttributeStore (typeName attrName : String) : Err E
  | ownerCollected : Err E
  | nameConflict (oldName newName : String) : Err E
  | operationConflict : Err E
  | opError (e : E) : Err E
deriving DecidableEq, Repr

/-- Association-list lookup by key, first match wins (models `dict.get` /
the lru table's hash lookup). -/
def lookupKey {K V : Type} [DecidableEq K] (k : K) : List (K × V) → Option V
  | [] => none
  | (k1, v) :: rest => if k1 = k then some v else lookupKey k rest

/-- The per-instance memoizer: the `lru_cache`-wrapped `WeaklyBoundMethod`
that `cached_method.__get__` installs in the instance's `__dict__`.
`ownerId` is the weak handle to the owning instance (`WeakMethod`);
`capacity`/`typed` are copied from the binder's `maxsize`/`typed` at
creation; `cache` is the LRU table, most recently used first. -/
structure Memoizer (K V : Type) where
  ownerId : Nat
  capacity : Option Nat
  typed : Bool
  cache : List (K × V)
deriving DecidableEq, Repr

/-- Calling the memoizer (`lru_cache` wrapper around
`WeaklyBoundMethod.__call__`).  On a hit the cached value is returned and
the entry promoted to most recently used; the weak handle is not resolved
and the operation is not called.  On a miss the weak handle is resolved
(`OwnerCollected` if the owner is gone), the operation is called with the
owner and the key, an error propagates uncached, and a successful result is
inserted most-recently-used, evicting beyond `capacity`.  Returns the
result, the updated memoizer, and the log of underlying calls made, each
tagged with the instance id the operation was invoked on. -/
def Memoizer.call {K V E : Type} [DecidableEq K] (alive : Nat → Bool)
    (op : Nat → K → Except E V) (m : Memoizer K V) (k : K) :
    Except (Err E) V × Memoizer K V × List (Nat × K) :=
  match lookupKey k m.cache with
  | some v =>
      (Except.ok v,
       { m with cache := (k, v) :: m.cache.filter (fun p => ¬ p.1 = k) }, [])
  | none =>
      if alive m.ownerId then
        match op m.ownerId k with
        | Except.error e => (Except.error (Err.opError e), m, [(m.ownerId, k)])
        | Except.ok v =>
            let grown := (k, v) :: m.cache
            let newCache :=
              match m.capacity with
              | none => grown
              | some cap => grown.take cap
            (Except.ok v, { m with cache := newCache }, [(m.ownerId, k)])
      else
        (Except.error Err.ownerCollected, m, [])

/-- The `cached_method` descriptor's own state: the identity of the wrapped
operation (`func`, compared by `is` in Python, hence an id), the attribute
name recorded by `__set_name__`, and the `lru_cache` configuration. -/
structure cached_method where
  func : Option Nat
  methname : Option String
  maxsize : Option Nat
  typed : Bool
deriving DecidableEq, Repr

/-- `cached_method.__init__(func, maxsize, typed)`: all fields are set and
then `self(func)` runs; since `func` starts out `None` that call never
raises, so construction is total. -/
def cached_method.init (func : Option Nat) (maxsize : Option Nat)
    (typed : Bool) : cached_method :=
  { func := func, methname := none, maxsize := maxsize, typed := typed }

/-- `cached_method.__call__(func)`: raises `TypeError` ("Cannot re-assign
cached_method to a different method") when an operation is already held and
the new one is not the same object; otherwise stores `func` and returns the
binder. -/
def cached_method.callDecorate {E : Type} (self : cached_method)
    (func : Option Nat) : Except (Err E) cached_method :=
  match self.func with
  | some f =>
      match func with
      | some g =>
          if g = f then Except.ok self else Except.error Err.operationConflict
      | none => Except.error Err.operationConflict
  | none => Except.ok { self with func := func }

/-- `cached_method.__set_name__(owner, name)`: records the name on first
attachment; a second attachment under the same name is a no-op, under a
different name it raises `TypeError` ("Cannot assign the same cached_method
to two different names"), leaving the recorded name unchanged. -/
def cached_method.setName {E : Type} (self : cached_method) (name : String) :
    Except (Err E) cached_method :=
  match self.methname with
  | none => Except.ok { self with methname := some name }
  | some n =>
      if name = n then Except.ok self
      else Except.error (Err.nameConflict n name)

/-- An instance's dynamic attribute store (`__dict__`), restricted to the
memoizer entries this library manipulates.  `writable = false` models a
store (such as a type's `mappingproxy`) whose item assignment raises
`TypeError`. -/
structure InstDict (K V : Type) where
  entries : List (String × Memoizer K V)
  writable : Bool
deriving DecidableEq, Repr

/-- A Python instance as the library sees it: its type's name (interpolated
into error messages) and its optional `__dict__` (`none` models a slots
class, where reading `instance.__dict__` raises `AttributeError`). -/
structure Instance (K V : Type) where
  typeName : String
  dict : Option (InstDict K V)
deriving DecidableEq, Repr

/-- `cached_method.__get__(instance, owner)` for a live instance `x`
(access through the class, `instance is None`, returns the binder itself
and is not modelled).  Returns the found-or-created memoizer together with
the possibly updated instance, or the error the code raises: missing
`__set_name__`, missing `__dict__`, or a `__dict__` that rejects item
assignment.  A freshly created memoizer weakly references `x` and copies
`maxsize`/`typed` from the binder. -/
def cached_method.descrGet {K V E : Type} (self : cached_method) (x : Nat)
    (inst : Instance K V) : Except (Err E) (Memoizer K V × Instance K V) :=
  match self.methname with
  | none => Except.error Err.unboundAccess
  | some name =>
      match inst.dict with
      | none => Except.error (Err.noAttributeStore inst.typeName name)
      | some d =>
          match lookupKey name d.entries with
          | some m => Except.ok (m, inst)
          | none =>
              let m : Memoizer K V :=
                { ownerId := x, capacity := self.maxsize,
                  typed := self.typed, cache := [] }
              if d.writable then
                Except.ok
                  (m, { inst with
                        dict := some { d with entries := (name, m) :: d.entries } })
              else
                Except.error (Err.immutableAttributeStore inst.typeName name)

/-- Overwrite the entry under `name` (models in-place mutation of the
memoizer object the `__dict__` entry points at). -/
def InstDict.setEntry {K V : Type} (d : InstDict K V) (name : String)
    (m : Memoizer K V) : InstDict K V :=
  { d with entries := (name, m) :: d.entries.filter (fun p => ¬ p.1 = name) }

/-- Write the mutated memoizer back into the instance (no-op when the
instance has no `__dict__`, which cannot happen after a successful
`descrGet`). -/
def Instance.setMemo {K V : Type} (inst : Instance K V) (name : String)
    (m : Memoizer K V) : Instance K V :=
  match inst.dict with
  | none => inst
  | some d => { inst with dict := some (d.setEntry name m) }

/-- One full cached invocation on instance `x`: resolve the bound attribute
via `descrGet`, call the resulting memoizer with key `k`, and persist the
memoizer's mutated state.  `op` is the operation the binder's `func` field
identifies.  Returns the result, the updated instance, and the log of
underlying calls. -/
def cached_method.invoke1 {K V E : Type} [DecidableEq K]
    (self : cached_method) (alive : Nat → Bool) (op : Nat → K → Except E V)
    (x : Nat) (inst : Instance K V) (k : K) :
    Except (Err E) V × Instance K V × List (Nat × K) :=
  match self.methname with
  | none => (Except.error Err.unboundAccess, inst, [])
  | some name =>
      match self.descrGet x inst with
      | Except.error e => (Except.error e, inst, [])
      | Except.ok (m, inst1) =>
          let r := Memoizer.call alive op m k
          (r.1, inst1.setMemo name r.2.1, r.2.2)

/-- A world of instances, indexed by instance id. -/
def World (K V : Type) : Type := Nat → Instance K V

/-- A cached invocation on instance `x` inside a world: only `x`'s
attribute store is read and written. -/
def cached_method.invokeW {K V E : Type} [DecidableEq K]
    (self : cached_method) (alive : Nat → Bool) (op : Nat → K → Except E V)
    (w : World K V) (x : Nat) (k : K) :
    Except (Err E) V × World K V × List (Nat × K) :=
  let r := self.invoke1 alive op x (w x) k
  (r.1, Function.update w x r.2.1, r.2.2)

/-- A sequence of cached invocations on instance `x`, threading the world
and concatenating the underlying-call logs. -/
def cached_method.invokeSeq {K V E : Type} [DecidableEq K]
    (self : cached_method) (alive : Nat → Bool) (op : Nat → K → Except E V)
    (x : Nat) : World K V → List K → World K V × List (Nat × K)
  | w, [] => (w, [])
  | w, k :: ks =>
      let r := self.invokeW alive op w x k
      let rest := self.invokeSeq alive op x r.2.1 ks
      (rest.1, r.2.2 ++ rest.2)

/-! Concrete sample objects, used to instantiate theorems with hypotheses. -/

/-- A binder wrapping operation 3, bound to attribute "f", unbounded cache. -/
def descr0 : cached_method :=
  { func := some 3, methname := some "f", maxsize := none, typed := false }

/-- A binder like `descr0` but with `maxsize = 2`. -/
def descrCap2 : cached_method :=
  { func := some 3, methname := some "f", maxsize := some 2, typed := false }

/-- An empty, writable instance `__dict__`. -/
def dict0 : InstDict Nat Nat := { entries := [], writable := true }

/-- An instance of a type named "T" with an empty writable store. -/
def inst0 : Instance Nat Nat := { typeName := "T", dict := some dict0 }

/-- A world where every id denotes a fresh copy of `inst0`. -/
def w0 : World Nat Nat := fun _ => inst0

/-- An operation that always succeeds and ignores the instance. -/
def opOk : Nat → Nat → Except Nat Nat := fun _ n => Except.ok (n + 1)

/-- An operation that always raises error 7. -/
def opErr : Nat → Nat → Except Nat Nat := fun _ _ => Except.error 7

/-- A liveness environment where every instance is alive. -/
def aliveAll : Nat → Bool := fun _ => true

/-- A liveness environment where every instance has been reclaimed. -/
def deadAll : Nat → Bool := fun _ => false

/-- A retained memoizer for instance 0, unbounded, with an empty table. -/
def memo0 : Memoizer Nat Nat :=
  { ownerId := 0, capacity := none, typed := false, cache := [] }

/-- A sequence of direct calls to one retained memoizer, threading its
state and concatenating the underlying-call logs. -/
def Memoizer.callSeq {K V E : Type} [DecidableEq K] (alive : Nat → Bool)
    (op : Nat → K → Except E V) :
    Memoizer K V → List K → Memoizer K V × List (Nat × K)
  | m, [] => (m, [])
  | m, k :: ks =>
      let r := Memoizer.call alive op m k
      let rest := Memoizer.callSeq alive op r.2.1 ks
      (rest.1, r.2.2 ++ rest.2)

/-- The argument keys currently cached, most recently used first. -/
def lruKeys {K V : Type} (cache : List (K × V)) : List K :=
  cache.map Prod.fst

/-- The per-instance well-formedness this library establishes: any memoizer
stored under `name` in the instance's store weakly references instance `x`
(true by construction, since only `descrGet` installs memoizers). -/
def ownedBy {K V : Type} (name : String) (x : Nat) (inst : Instance K V) :
    Prop :=
  ∀ (d : InstDict K V) (m : Memoizer K V),
    inst.dict = some d → lookupKey name d.entries = some m → m.ownerId = x

/-! An explicit ownership graph for the objects `__get__` creates, for the
reference-cycle claim.  Nodes are object ids; `strongRefs` lists the ids an
object keeps alive.  The `WeaklyBoundMethod` node holds only a
`weakref.WeakMethod` to its target, which by the host's weak-reference
semantics keeps nothing alive, so it contributes no strong edge. -/

/-- The heap objects involved in one attachment: the instance (strongly
owning its `__dict__`), the `__dict__` (strongly owning its values), the
`lru_cache` wrapper (strongly owning the wrapped callable), and the
`WeaklyBoundMethod` (holding only a weak handle to the instance). -/
inductive HObj where
  | instObj (dictId : Nat) : HObj
  | dictObj (valueIds : List Nat) : HObj
  | lruObj (wrappedId : Nat) : HObj
  | weakInvokerObj (weakTargetId : Nat) : HObj
deriving DecidableEq, Repr

/-- The ids an object strongly references.  A weak handle contributes
nothing: resolving it later may find the target gone. -/
def strongRefs : HObj → List Nat
  | HObj.instObj d => [d]
  | HObj.dictObj vs => vs
  | HObj.lruObj wrapped => [wrapped]
  | HObj.weakInvokerObj _ => []

/-- A heap: a partial map from object ids to objects. -/
def Heap : Type := Nat → Option HObj

/-- `a` strongly references `b` in heap `h`. -/
def strongEdge (h : Heap) (a b : Nat) : Prop :=
  ∃ o, h a = some o ∧ b ∈ strongRefs o

/-- Strong reachability: `b` is kept alive by `a`. -/
def StrongReach (h : Heap) : Nat → Nat → Prop :=
  Relation.ReflTransGen (strongEdge h)

/-- The heap fragment after `cached_method.__get__` attaches a memoizer to
instance `i`: `i` owns dict `d`, which owns the `lru_cache` wrapper `m`,
which owns the `WeaklyBoundMethod` `wk`, which weakly references `i`. -/
def attachHeap (i d m wk : Nat) : Heap := fun n =>
  if n = i then some (HObj.instObj d)
  else if n = d then some (HObj.dictObj [m])
  else if n = m then some (HObj.lruObj wk)
  else if n = wk then some (HObj.weakInvokerObj i)
  else none

/-- A memoizer for instance 0 with capacity 2 and an empty table. -/
def memoCap2 : Memoizer Nat Nat :=
  { ownerId := 0, capacity := some 2, typed := false, cache := [] }

/-- An unbounded memoizer for instance 0 already caching key 9. -/
def memoU : Memoizer Nat Nat :=
  { ownerId := 0, capacity := none, typed := false, cache := [(9, 90)] }

/-! Helper lemmas about `lookupKey`. -/

theorem lookupKey_eq_none_iff {K V : Type} [DecidableEq K] (k : K)
    (l : List (K × V)) : lookupKey k l = none ↔ ∀ p ∈ l, ¬ p.1 = k := by
  induction l with
  | nil => simp [lookupKey]
  | cons p rest ih =>
      obtain ⟨k1, v⟩ := p
      by_cases h : k1 = k <;> simp [lookupKey, h, ih]

theorem filter_of_lookupKey_none {K V : Type} [DecidableEq K] (k : K)
    (l : List (K × V)) (h : lookupKey k l = none) :
    l.filter (fun p => ¬ p.1 = k) = l := by
  rw [List.filter_eq_self]
  intro p hp
  simpa using (lookupKey_eq_none_iff k l).mp h p hp

/-- On a `descrGet` failure, `invoke1` reports the error, leaves the
instance unchanged, and makes no underlying call. -/
theorem invoke1_of_descrGet_error {K V E : Type} [DecidableEq K]
    (self : cached_method) (alive : Nat → Bool) (op : Nat → K → Except E V)
    (x : Nat) (inst : Instance K V) (k : K) (e : Err E)
    (h : self.descrGet x inst = Except.error e) :
    self.invoke1 alive op x inst k = (Except.error e, inst, []) := by
  cases hn : self.methname with
  | none =>
      have he : Err.unboundAccess = e := by
        simpa [cached_method.descrGet, hn] using h
      subst he
      simp [cached_method.invoke1, hn]
  | some name =>
      simp [cached_method.invoke1, hn, h]

/-! Claim theorems. -/

theorem invokeW_fst {K V E : Type} [DecidableEq K] (self : cached_method)
    (alive : Nat → Bool) (op : Nat → K → Except E V) (w : World K V)
    (x : Nat) (k : K) :
    (self.invokeW alive op w x k).1 = (self.invoke1 alive op x (w x) k).1 :=
  rfl

theorem invokeW_log {K V E : Type} [DecidableEq K] (self : cached_method)
    (alive : Nat → Bool) (op : Nat → K → Except E V) (w : World K V)
    (x : Nat) (k : K) :
    (self.invokeW alive op w x k).2.2 =
      (self.invoke1 alive op x (w x) k).2.2 :=
  rfl

theorem invokeW_world_self {K V E : Type} [DecidableEq K]
    (self : cached_method) (alive : Nat → Bool) (op : Nat → K → Except E V)
    (w : World K V) (x : Nat) (k : K) :
    (self.invokeW alive op w x k).2.1 x =
      (self.invoke1 alive op x (w x) k).2.1 := by
  simp [cached_method.invokeW]

/-- A first invocation on a fresh, writable store with a live owner and a
succeeding operation returns the operation's result with exactly one
underlying call, and a second invocation with the same key hits the cache:
same result, no further call. -/
theorem invoke1_fresh_hit {K V E : Type} [DecidableEq K]
    (self : cached_method) (alive : Nat → Bool) (op : Nat → K → Except E V)
    (x : Nat) (inst : Instance K V) (k : K) (name : String)
    (d : InstDict K V) (v : V)
    (hname : self.methname = some name)
    (hcap : ¬ self.maxsize = some 0)
    (hdict : inst.dict = some d)
    (hwritable : d.writable = true)
    (hfresh : lookupKey name d.entries = none)
    (halive : alive x = true)
    (hop : op x k = Except.ok v) :
    (self.invoke1 alive op x inst k).1 = Except.ok v
    ∧ (self.invoke1 alive op x inst k).2.2 = [(x, k)]
    ∧ (self.invoke1 alive op x (self.invoke1 alive op x inst k).2.1 k).1 =
        Except.ok v
    ∧ (self.invoke1 alive op x (self.invoke1 alive op x inst k).2.1 k).2.2 =
        [] := by
  have hfilter := filter_of_lookupKey_none name d.entries hfresh
  rcases hms : self.maxsize with _ | c
  · simp [cached_method.invoke1, cached_method.descrGet, Memoizer.call,
      Instance.setMemo, InstDict.setEntry, lookupKey, hname, hdict,
      hwritable, hfresh, halive, hop, hms, hfilter]
  · rw [hms] at hcap
    rcases c with _ | c
    · exact absurd rfl hcap
    · simp [cached_method.invoke1, cached_method.descrGet, Memoizer.call,
        Instance.setMemo, InstDict.setEntry, lookupKey, hname, hdict,
        hwritable, hfresh, halive, hop, hms, hfilter]

/-- C1: for an instance with a mutable attribute store and an operation
with no external side effects (a pure function that returns normally),
invoking the bound operation twice with the same key calls the underlying
operation exactly once — the first invocation logs the single call, the
second logs none — and the second invocation returns a result equal to the
first's. -/
theorem memoization {K V E : Type} [DecidableEq K]
    (self : cached_method) (alive : Nat → Bool) (op : Nat → K → Except E V)
    (w : World K V) (x : Nat) (k : K) (name : String) (d : InstDict K V)
    (v : V)
    (hname : self.methname = some name)
    (hcap : ¬ self.maxsize = some 0)
    (hdict : (w x).dict = some d)
    (hwritable : d.writable = true)
    (hfresh : lookupKey name d.entries = none)
    (halive : alive x = true)
    (hop : op x k = Except.ok v) :
    (self.invokeW alive op w x k).1 = Except.ok v
    ∧ (self.invokeW alive op (self.invokeW alive op w x k).2.1 x k).1 =
        Except.ok v
    ∧ (self.invokeW alive op w x k).2.2 = [(x, k)]
    ∧ (self.invokeW alive op (self.invokeW alive op w x k).2.1 x k).2.2 =
        [] := by
  have h := invoke1_fresh_hit self alive op x (w x) k name d v hname hcap
    hdict hwritable hfresh halive hop
  refine ⟨?_, ?_, ?_, ?_⟩
  · rw [invokeW_fst]; exact h.1
  · rw [invokeW_fst, invokeW_world_self]; exact h.2.2.1
  · rw [invokeW_log]; exact h.2.1
  · rw [invokeW_log, invokeW_world_self]; exact h.2.2.2

/-- C1 witness: `descr0` on world `w0`, instance 0, key 5: the first call
computes 6 with one underlying call, the second returns 6 from cache. -/
theorem memoization_witness :
    (descr0.invokeW aliveAll opOk w0 0 5).1 = Except.ok 6
    ∧ (descr0.invokeW aliveAll opOk
        (descr0.invokeW aliveAll opOk w0 0 5).2.1 0 5).1 = Except.ok 6
    ∧ (descr0.invokeW aliveAll opOk w0 0 5).2.2 = [(0, 5)]
    ∧ (descr0.invokeW aliveAll opOk
        (descr0.invokeW aliveAll opOk w0 0 5).2.1 0 5).2.2 = [] :=
  memoization descr0 aliveAll opOk w0 0 5 "f" dict0 6 rfl (by decide)
    rfl rfl rfl rfl rfl

/-- C5 counterexample: the claim says that after a failed second
attachment under a different name the descriptor is permanently unusable
under either name.  On the code, after `setName` fails, the binder's state
is unchanged and access under the first name still succeeds: `descr0`
(bound to "f") rejects "g" but still installs and returns a memoizer. -/
theorem name_rebind_counterexample :
    (descr0.setName "g" : Except (Err Nat) cached_method) =
      Except.error (Err.nameConflict "f" "g")
    ∧ (descr0.descrGet 0 inst0 :
        Except (Err Nat) (Memoizer Nat Nat × Instance Nat Nat)) =
      Except.ok
        ({ ownerId := 0, capacity := none, typed := false, cache := [] },
         { typeName := "T",
           dict := some
             { entries :=
                 [("f", { ownerId := 0, capacity := none, typed := false,
                          cache := [] })],
               writable := true } }) := by
  constructor
  · simp [descr0, cached_method.setName]
  · simp [descr0, inst0, dict0, cached_method.descrGet, lookupKey]

/-- C5 (amended): attaching an already-named binder under a second,
different attribute name fails with `nameConflict` naming both names; the
failure leaves the recorded name unchanged, so the binder remains fully
usable under the first name (the second attachment's type definition
fails, so it never becomes accessible under the second name). -/
theorem name_write_once {K V E : Type} [DecidableEq K]
    (self : cached_method) (n n1 t : String) (x : Nat)
    (entries : List (String × Memoizer K V))
    (hname : self.methname = some n) (hne : ¬ n1 = n)
    (hfresh : lookupKey n entries = none) :
    (self.setName n1 : Except (Err E) cached_method) =
      Except.error (Err.nameConflict n n1)
    ∧ (self.descrGet x
        { typeName := t, dict := some { entries := entries, writable := true } } :
        Except (Err E) (Memoizer K V × Instance K V)) =
      Except.ok
        ({ ownerId := x, capacity := self.maxsize, typed := self.typed,
           cache := [] },
         { typeName := t,
           dict := some
             { entries :=
                 (n, { ownerId := x, capacity := self.maxsize,
                       typed := self.typed, cache := [] }) :: entries,
               writable := true } }) := by
  constructor
  · simp [cached_method.setName, hname, hne]
  · simp [cached_method.descrGet, hname, hfresh]

/-- C5 witness: `descr0` (bound to "f") rejects "g" and stays usable. -/
theorem name_write_once_witness :
    (descr0.setName "g" : Except (Err Nat) cached_method) =
      Except.error (Err.nameConflict "f" "g")
    ∧ (descr0.descrGet 7
        { typeName := "U", dict := some { entries := [], writable := true } } :
        Except (Err Nat) (Memoizer Nat Nat × Instance Nat Nat)) =
      Except.ok
        ({ ownerId := 7, capacity := descr0.maxsize, typed := descr0.typed,
           cache := [] },
         { typeName := "U",
           dict := some
             { entries :=
                 [("f", { ownerId := 7, capacity := descr0.maxsize,
                          typed := descr0.typed, cache := [] })],
               writable := true } }) :=
  name_write_once descr0 "f" "g" "U" 7 [] rfl (by decide) rfl

/-- C6: a binder's operation field is write-once: re-supplying the same
operation to a binder that already holds one is a no-op returning the
binder unchanged, while supplying a different operation fails with
`operationConflict` at configuration time. -/
theorem operation_write_once {E : Type} (self : cached_method) (f g : Nat)
    (hf : self.func = some f) (hg : ¬ g = f) :
    (self.callDecorate (some f) : Except (Err E) cached_method) =
        Except.ok self
    ∧ (self.callDecorate (some g) : Except (Err E) cached_method) =
        Except.error Err.operationConflict := by
  constructor
  · simp [cached_method.callDecorate, hf]
  · simp [cached_method.callDecorate, hf, hg]

/-- C6 witness: `descr0` holds operation 3; re-supplying 3 is a no-op and
supplying 4 fails. -/
theorem operation_write_once_witness :
    (descr0.callDecorate (some 3) : Except (Err Nat) cached_method) =
        Except.ok descr0
    ∧ (descr0.callDecorate (some 4) : Except (Err Nat) cached_method) =
        Except.error Err.operationConflict :=
  operation_write_once descr0 3 4 rfl (by decide)

/-- C7: on first access through a bound binder, an instance without a
dynamic attribute store fails with `noAttributeStore`, and an instance
whose store rejects the write fails with `immutableAttributeStore`; both
errors carry the instance's type name and the bound attribute name, and
the two failures are distinct. -/
theorem storage_failures_distinct {K V E : Type} [DecidableEq K]
    (self : cached_method) (name t : String)
    (entries : List (String × Memoizer K V)) (x : Nat)
    (hname : self.methname = some name)
    (hmiss : lookupKey name entries = none) :
    (self.descrGet x { typeName := t, dict := none } :
        Except (Err E) (Memoizer K V × Instance K V)) =
      Except.error (Err.noAttributeStore t name)
    ∧ (self.descrGet x
        { typeName := t, dict := some { entries := entries, writable := false } } :
        Except (Err E) (Memoizer K V × Instance K V)) =
      Except.error (Err.immutableAttributeStore t name)
    ∧ (Err.noAttributeStore t name : Err E) ≠ Err.immutableAttributeStore t name := by
  refine ⟨?_, ?_, ?_⟩
  · simp [cached_method.descrGet, hname]
  · simp [cached_method.descrGet, hname, hmiss]
  · intro h
    exact Err.noConfusion h

/-- C7 witness: instantiated at `descr0`, a slots-like instance and a
read-only store of type "T". -/
theorem storage_failures_distinct_witness :
    (descr0.descrGet 0 { typeName := "T", dict := none } :
        Except (Err Nat) (Memoizer Nat Nat × Instance Nat Nat)) =
      Except.error (Err.noAttributeStore "T" "f")
    ∧ (descr0.descrGet 0
        { typeName := "T", dict := some { entries := [], writable := false } } :
        Except (Err Nat) (Memoizer Nat Nat × Instance Nat Nat)) =
      Except.error (Err.immutableAttributeStore "T" "f")
    ∧ (Err.noAttributeStore "T" "f" : Err Nat) ≠
        Err.immutableAttributeStore "T" "f" :=
  storage_failures_distinct descr0 "f" "T" [] 0 rfl rfl

/-- C8: calling a retained memoizer whose owner has been reclaimed, with a
key not already cached, resolves the weak handle, finds the owner gone and
fails with `ownerCollected` without calling the operation and without
touching the table. -/
theorem owner_collected_on_miss {K V E : Type} [DecidableEq K]
    (m : Memoizer K V) (alive : Nat → Bool) (op : Nat → K → Except E V)
    (k : K) (hdead : alive m.ownerId = false)
    (hmiss : lookupKey k m.cache = none) :
    Memoizer.call alive op m k = (Except.error Err.ownerCollected, m, []) := by
  simp [Memoizer.call, hmiss, hdead]

/-- C8 witness: `memo0` (owner 0) called after every owner died. -/
theorem owner_collected_on_miss_witness :
    Memoizer.call deadAll opOk memo0 5 =
      (Except.error Err.ownerCollected, memo0, []) :=
  owner_collected_on_miss memo0 deadAll opOk 5 rfl rfl

/-- C9: when the underlying operation raises, the error propagates
(wrapped as `opError`), no cache entry is stored, and a second call with
the same key calls the operation again. -/
theorem error_propagates_uncached {K V E : Type} [DecidableEq K]
    (m : Memoizer K V) (alive : Nat → Bool) (op : Nat → K → Except E V)
    (k : K) (e : E) (halive : alive m.ownerId = true)
    (hmiss : lookupKey k m.cache = none)
    (hop : op m.ownerId k = Except.error e) :
    Memoizer.call alive op m k =
        (Except.error (Err.opError e), m, [(m.ownerId, k)])
    ∧ Memoizer.call alive op (Memoizer.call alive op m k).2.1 k =
        (Except.error (Err.opError e), m, [(m.ownerId, k)]) := by
  have h1 : Memoizer.call alive op m k =
      (Except.error (Err.opError e), m, [(m.ownerId, k)]) := by
    simp [Memoizer.call, hmiss, halive, hop]
  exact ⟨h1, by rw [h1]; exact h1⟩

/-- C9 witness: `memo0` with the always-raising operation, alive owner. -/
theorem error_propagates_uncached_witness :
    Memoizer.call aliveAll opErr memo0 5 =
        (Except.error (Err.opError 7), memo0, [(0, 5)])
    ∧ Memoizer.call aliveAll opErr
        (Memoizer.call aliveAll opErr memo0 5).2.1 5 =
        (Except.error (Err.opError 7), memo0, [(0, 5)]) :=
  error_propagates_uncached memo0 aliveAll opErr 5 7 rfl rfl rfl

/-- C10: whenever resolving the bound attribute on an instance fails (no
name attached, no attribute store, or the store rejects the write), the
world is left unchanged — no memoizer is installed — the underlying
operation is not called, and a repeated access fails with the same
error. -/
theorem resolve_failure_frame {K V E : Type} [DecidableEq K]
    (self : cached_method) (alive : Nat → Bool) (op : Nat → K → Except E V)
    (w : World K V) (x : Nat) (k : K) (e : Err E)
    (hfail : self.descrGet x (w x) = Except.error e) :
    self.invokeW alive op w x k = (Except.error e, w, [])
    ∧ (self.invokeW alive op (self.invokeW alive op w x k).2.1 x k).1 =
        Except.error e := by
  have h0 := invoke1_of_descrGet_error self alive op x (w x) k e hfail
  have h1 : self.invokeW alive op w x k = (Except.error e, w, []) := by
    simp [cached_method.invokeW, h0, Function.update_eq_self]
  refine ⟨h1, ?_⟩
  rw [h1]
  simp [h1]

/-- C10 witness: `descr0` accessed on a slots-like world (no store
anywhere) fails with `noAttributeStore` twice and changes nothing. -/
theorem resolve_failure_frame_witness :
    descr0.invokeW aliveAll opOk
        (fun _ => ({ typeName := "S", dict := none } : Instance Nat Nat)) 0 5 =
      (Except.error (Err.noAttributeStore "S" "f"),
       fun _ => ({ typeName := "S", dict := none } : Instance Nat Nat), [])
    ∧ (descr0.invokeW aliveAll opOk
        ((descr0.invokeW aliveAll opOk
          (fun _ => ({ typeName := "S", dict := none } : Instance Nat Nat))
          0 5).2.1) 0 5).1 =
      Except.error (Err.noAttributeStore "S" "f") :=
  resolve_failure_frame descr0 aliveAll opOk
    (fun _ => ({ typeName := "S", dict := none } : Instance Nat Nat)) 0 5
    (Err.noAttributeStore "S" "f") rfl

/-- Inversion of strong edges in the attachment heap: the only strong
references are instance → dict, dict → memoizer, memoizer → invoker.  The
invoker's weak handle contributes no edge. -/
theorem attachHeap_edge_cases (i d m wk a b : Nat)
    (h : strongEdge (attachHeap i d m wk) a b) :
    (a = i ∧ b = d) ∨ (a = d ∧ b = m) ∨ (a = m ∧ b = wk) := by
  obtain ⟨o, ho, hb⟩ := h
  unfold attachHeap at ho
  split_ifs at ho with h1 h2 h3 h4
  · obtain rfl : HObj.instObj d = o := by injection ho
    simp only [strongRefs, List.mem_singleton] at hb
    exact Or.inl ⟨h1, hb⟩
  · obtain rfl : HObj.dictObj [m] = o := by injection ho
    simp only [strongRefs, List.mem_singleton] at hb
    exact Or.inr (Or.inl ⟨h2, hb⟩)
  · obtain rfl : HObj.lruObj wk = o := by injection ho
    simp only [strongRefs, List.mem_singleton] at hb
    exact Or.inr (Or.inr ⟨h3, hb⟩)
  · obtain rfl : HObj.weakInvokerObj i = o := by injection ho
    simp only [strongRefs, List.not_mem_nil] at hb

/-- Strong reachability from the dict, the memoizer or the invoker never
leaves that set: in particular it never reaches the instance. -/
theorem attachHeap_reach_closed (i d m wk : Nat)
    (hdi : ¬ d = i) (hmi : ¬ m = i) (hwi : ¬ wk = i) :
    ∀ a b, StrongReach (attachHeap i d m wk) a b →
      (a = d ∨ a = m ∨ a = wk) → (b = d ∨ b = m ∨ b = wk) := by
  intro a b hreach
  induction hreach with
  | refl => exact fun h => h
  | tail hpre hstep ih =>
      intro ha
      have hb := ih ha
      rcases attachHeap_edge_cases i d m wk _ _ hstep with
        ⟨hbi, hcd⟩ | ⟨hbd, hcm⟩ | ⟨hbm, hcw⟩
      · rcases hb with h | h | h
        · exact absurd (h.symm.trans hbi) hdi
        · exact absurd (h.symm.trans hbi) hmi
        · exact absurd (h.symm.trans hbi) hwi
      · exact Or.inr (Or.inl hcm)
      · exact Or.inr (Or.inr hcw)

/-- C4: in the heap fragment `__get__` builds, the instance strongly owns
its store, which strongly owns the memoizer; but neither the memoizer nor
its weakly bound invoker strongly reaches the instance, and attaching
creates no strong reference cycle through the instance, so the instance's
lifetime is not extended. -/
theorem weak_ownership_no_cycle (i d m wk : Nat)
    (hdi : ¬ d = i) (hmi : ¬ m = i) (hwi : ¬ wk = i) :
    strongEdge (attachHeap i d m wk) i d
    ∧ strongEdge (attachHeap i d m wk) d m
    ∧ StrongReach (attachHeap i d m wk) i m
    ∧ ¬ StrongReach (attachHeap i d m wk) m i
    ∧ ¬ StrongReach (attachHeap i d m wk) wk i
    ∧ ¬ Relation.TransGen (strongEdge (attachHeap i d m wk)) i i := by
  have e1 : strongEdge (attachHeap i d m wk) i d :=
    ⟨HObj.instObj d, by simp [attachHeap], by simp [strongRefs]⟩
  have e2 : strongEdge (attachHeap i d m wk) d m :=
    ⟨HObj.dictObj [m], by simp [attachHeap, hdi], by simp [strongRefs]⟩
  refine ⟨e1, e2, Relation.ReflTransGen.head e1 (Relation.ReflTransGen.single e2),
    ?_, ?_, ?_⟩
  · intro hreach
    rcases attachHeap_reach_closed i d m wk hdi hmi hwi m i hreach
        (Or.inr (Or.inl rfl)) with h | h | h
    · exact hdi h.symm
    · exact hmi h.symm
    · exact hwi h.symm
  · intro hreach
    rcases attachHeap_reach_closed i d m wk hdi hmi hwi wk i hreach
        (Or.inr (Or.inr rfl)) with h | h | h
    · exact hdi h.symm
    · exact hmi h.symm
    · exact hwi h.symm
  · intro hcycle
    obtain ⟨b, hib, hbi⟩ := (Relation.TransGen.head'_iff).mp hcycle
    rcases attachHeap_edge_cases i d m wk _ _ hib with
      ⟨_, hbd⟩ | ⟨hid, _⟩ | ⟨him, _⟩
    · rcases attachHeap_reach_closed i d m wk hdi hmi hwi b i hbi
          (Or.inl hbd) with h | h | h
      · exact hdi h.symm
      · exact hmi h.symm
      · exact hwi h.symm
    · exact hdi hid.symm
    · exact hmi him.symm

/-- C4 witness: ids 0 (instance), 1 (dict), 2 (memoizer), 3 (invoker). -/
theorem weak_ownership_no_cycle_witness :
    strongEdge (attachHeap 0 1 2 3) 0 1
    ∧ strongEdge (attachHeap 0 1 2 3) 1 2
    ∧ StrongReach (attachHeap 0 1 2 3) 0 2
    ∧ ¬ StrongReach (attachHeap 0 1 2 3) 2 0
    ∧ ¬ StrongReach (attachHeap 0 1 2 3) 3 0
    ∧ ¬ Relation.TransGen (strongEdge (attachHeap 0 1 2 3)) 0 0 :=
  weak_ownership_no_cycle 0 1 2 3 (by decide) (by decide) (by decide)

/-! Helpers for the capacity-eviction claim. -/

theorem take_append_take {A : Type} (l1 l2 : List A) (c : Nat) :
    (l1 ++ l2.take c).take c = (l1 ++ l2).take c := by
  rw [List.take_append_eq_append_take, List.take_append_eq_append_take,
    List.take_take, Nat.min_eq_left (Nat.sub_le c l1.length)]

theorem call_ownerId {K V E : Type} [DecidableEq K] (alive : Nat → Bool)
    (op : Nat → K → Except E V) (m : Memoizer K V) (k : K) :
    (Memoizer.call alive op m k).2.1.ownerId = m.ownerId := by
  cases hk : lookupKey k m.cache with
  | some v => simp [Memoizer.call, hk]
  | none =>
      by_cases ha : alive m.ownerId
      · cases ho : op m.ownerId k with
        | error e => simp [Memoizer.call, hk, ha, ho]
        | ok v => simp [Memoizer.call, hk, ha, ho]
      · simp [Memoizer.call, hk, ha]

theorem call_capacity {K V E : Type} [DecidableEq K] (alive : Nat → Bool)
    (op : Nat → K → Except E V) (m : Memoizer K V) (k : K) :
    (Memoizer.call alive op m k).2.1.capacity = m.capacity := by
  cases hk : lookupKey k m.cache with
  | some v => simp [Memoizer.call, hk]
  | none =>
      by_cases ha : alive m.ownerId
      · cases ho : op m.ownerId k with
        | error e => simp [Memoizer.call, hk, ha, ho]
        | ok v => simp [Memoizer.call, hk, ha, ho]
      · simp [Memoizer.call, hk, ha]

theorem call_miss_ok_cache {K V E : Type} [DecidableEq K] (alive : Nat → Bool)
    (op : Nat → K → Except E V) (m : Memoizer K V) (k : K) (v : V) (c : Nat)
    (hk : lookupKey k m.cache = none) (ha : alive m.ownerId = true)
    (ho : op m.ownerId k = Except.ok v) (hc : m.capacity = some c) :
    (Memoizer.call alive op m k).2.1.cache = ((k, v) :: m.cache).take c := by
  simp [Memoizer.call, hk, ha, ho, hc]

/-- Inserting fresh, pairwise distinct keys into a capacity-`c` memoizer
with a live owner and a succeeding operation leaves exactly the `c` most
recently inserted entries, most recent first. -/
theorem callSeq_fresh_cache {K V E : Type} [DecidableEq K]
    (alive : Nat → Bool) (op : Nat → K → Except E V) (f : K → V) (c : Nat)
    (hop : ∀ i k, op i k = Except.ok (f k)) :
    ∀ (ks : List K) (m : Memoizer K V),
      m.capacity = some c → alive m.ownerId = true →
      (∀ k ∈ ks, lookupKey k m.cache = none) → ks.Nodup →
      m.cache.length ≤ c →
      (Memoizer.callSeq alive op m ks).1.cache =
          ((ks.reverse.map (fun k => (k, f k))) ++ m.cache).take c
        ∧ (Memoizer.callSeq alive op m ks).1.ownerId = m.ownerId
        ∧ (Memoizer.callSeq alive op m ks).1.capacity = m.capacity := by
  intro ks
  induction ks with
  | nil =>
      intro m hcap halive hfresh hnodup hlen
      simp [Memoizer.callSeq, List.take_of_length_le hlen]
  | cons k ks ih =>
      intro m hcap halive hfresh hnodup hlen
      have hk : lookupKey k m.cache = none := hfresh k (by simp)
      have hcall : (Memoizer.call alive op m k).2.1.cache =
          ((k, f k) :: m.cache).take c :=
        call_miss_ok_cache alive op m k (f k) c hk halive
          (hop m.ownerId k) hcap
      have h1own : (Memoizer.call alive op m k).2.1.ownerId = m.ownerId :=
        call_ownerId alive op m k
      have h1cap : (Memoizer.call alive op m k).2.1.capacity = some c := by
        rw [call_capacity]; exact hcap
      have h1alive : alive (Memoizer.call alive op m k).2.1.ownerId = true := by
        rw [h1own]; exact halive
      have h1len : (Memoizer.call alive op m k).2.1.cache.length ≤ c := by
        rw [hcall]
        exact List.length_take_le c _
      have h1fresh : ∀ k2 ∈ ks,
          lookupKey k2 (Memoizer.call alive op m k).2.1.cache = none := by
        intro k2 hk2
        rw [lookupKey_eq_none_iff]
        intro p hp
        rw [hcall] at hp
        have hp2 : p ∈ (k, f k) :: m.cache := List.take_subset c _ hp
        rcases (List.mem_cons).mp hp2 with rfl | hpm
        · intro hpk
          have hkk2 : k = k2 := hpk
          exact (List.nodup_cons.mp hnodup).1 (hkk2 ▸ hk2)
        · exact (lookupKey_eq_none_iff k2 m.cache).mp
            (hfresh k2 (List.mem_cons_of_mem k hk2)) p hpm
      obtain ⟨hc1, ho1, hcap1⟩ := ih (Memoizer.call alive op m k).2.1 h1cap
        h1alive h1fresh (List.nodup_cons.mp hnodup).2 h1len
      have hstep : (Memoizer.callSeq alive op m (k :: ks)).1 =
          (Memoizer.callSeq alive op (Memoizer.call alive op m k).2.1 ks).1 :=
        rfl
      refine ⟨?_, ?_, ?_⟩
      · rw [hstep, hc1, hcall, take_append_take]
        congr 1
        simp
      · rw [hstep, ho1, h1own]
      · rw [hstep, hcap1, h1cap, hcap]


/-- With no capacity set, a call never removes a cached key, whatever the
operation does and whether or not the owner is alive. -/
theorem unbounded_no_eviction {K V E : Type} [DecidableEq K]
    (alive : Nat → Bool) (opU : Nat → K → Except E V) (mU : Memoizer K V)
    (kU kU2 : K) (hUcap : mU.capacity = none)
    (hU2 : kU2 ∈ lruKeys mU.cache) :
    kU2 ∈ lruKeys (Memoizer.call alive opU mU kU).2.1.cache := by
  simp only [lruKeys] at hU2
  rcases hk : lookupKey kU mU.cache with _ | v
  · by_cases ha : alive mU.ownerId
    · rcases ho : opU mU.ownerId kU with e | v
      · simp only [Memoizer.call, hk, ha, if_true, ho, lruKeys]
        exact hU2
      · simp only [Memoizer.call, hk, ha, if_true, ho, hUcap, lruKeys]
        simp only [List.map_cons, List.mem_cons]
        exact Or.inr hU2
    · simp only [Memoizer.call, hk, lruKeys, ha, Bool.false_eq_true,
        if_false]
      exact hU2
  · simp only [Memoizer.call, hk, lruKeys, List.map_cons, List.mem_cons]
    by_cases hkk : kU2 = kU
    · exact Or.inl hkk
    · right
      obtain ⟨p, hp, hp1⟩ := List.mem_map.mp hU2
      exact List.mem_map.mpr
        ⟨p, List.mem_filter.mpr ⟨hp, by simp [hp1, hkk]⟩, hp1⟩

/-- C2: with capacity `c`, after inserting `c + 1` distinct fresh keys in
order into an empty per-instance cache, the first key — the strictly
least-recently-used one — has been evicted, so a subsequent call with it
calls the underlying operation again; and with capacity unset, no cached
key is ever evicted by any call. -/
theorem capacity_eviction {K V E : Type} [DecidableEq K]
    (alive : Nat → Bool) (op opU : Nat → K → Except E V) (f : K → V)
    (m0 mU : Memoizer K V) (c : Nat) (ks : List K) (k0 kU kU2 : K)
    (hop : ∀ i k, op i k = Except.ok (f k))
    (hcap : m0.capacity = some c) (hc : 1 ≤ c) (hcache : m0.cache = [])
    (halive : alive m0.ownerId = true)
    (hlen : ks.length = c + 1) (hnodup : ks.Nodup)
    (hhead : ks.head? = some k0)
    (hUcap : mU.capacity = none) (hU2 : kU2 ∈ lruKeys mU.cache) :
    lookupKey k0 (Memoizer.callSeq alive op m0 ks).1.cache = none
    ∧ (Memoizer.call alive op (Memoizer.callSeq alive op m0 ks).1 k0).2.2 =
        [(m0.ownerId, k0)]
    ∧ kU2 ∈ lruKeys (Memoizer.call alive opU mU kU).2.1.cache := by
  cases ks with
  | nil => exact absurd hhead (by simp)
  | cons khd t =>
      obtain rfl : k0 = khd := by
        have h1 : khd = k0 := by simpa using hhead
        exact h1.symm
      have hlt : t.length = c := by simpa using hlen
      have hfresh : ∀ k ∈ k0 :: t, lookupKey k m0.cache = none := by
        intro k hk
        simp [hcache, lookupKey]
      have hlen0 : m0.cache.length ≤ c := by simp [hcache]
      obtain ⟨hceq, hown, hcapeq⟩ := callSeq_fresh_cache alive op f c hop
        (k0 :: t) m0 hcap halive hfresh hnodup hlen0
      rw [hcache, List.append_nil] at hceq
      have hrev : ((k0 :: t).reverse.map (fun k => (k, f k))) =
          t.reverse.map (fun k => (k, f k)) ++ [(k0, f k0)] := by
        simp
      rw [hrev] at hceq
      have hlen2 : (t.reverse.map (fun k => (k, f k))).length = c := by
        simp [hlt]
      have htake := List.take_left (t.reverse.map (fun k => (k, f k)))
        [(k0, f k0)]
      rw [hlen2] at htake
      rw [htake] at hceq
      have hmiss : lookupKey k0
          (Memoizer.callSeq alive op m0 (k0 :: t)).1.cache = none := by
        rw [hceq, lookupKey_eq_none_iff]
        intro p hp
        obtain ⟨a, hat, rfl⟩ := List.mem_map.mp hp
        intro h
        have ha0 : a = k0 := h
        rw [ha0] at hat
        exact (List.nodup_cons.mp hnodup).1 (List.mem_reverse.mp hat)
      have halive1 :
          alive (Memoizer.callSeq alive op m0 (k0 :: t)).1.ownerId = true := by
        rw [hown]; exact halive
      refine ⟨hmiss, ?_,
        unbounded_no_eviction alive opU mU kU kU2 hUcap hU2⟩
      simp [Memoizer.call, hmiss, halive1, halive, hop, hown]

/-- C2 witness: capacity 2, keys 3,4,5 inserted in order; key 3 is evicted
and recomputed on the next call; the unbounded memoizer `memoU` keeps key 9
across a further call. -/
theorem capacity_eviction_witness :
    lookupKey 3 (Memoizer.callSeq aliveAll opOk memoCap2 [3, 4, 5]).1.cache =
        none
    ∧ (Memoizer.call aliveAll opOk
        (Memoizer.callSeq aliveAll opOk memoCap2 [3, 4, 5]).1 3).2.2 =
        [(0, 3)]
    ∧ 9 ∈ lruKeys (Memoizer.call aliveAll opOk memoU 4).2.1.cache :=
  capacity_eviction aliveAll opOk opOk (fun n => n + 1) memoCap2 memoU 2
    [3, 4, 5] 3 4 9 (fun _ _ => rfl) rfl (by decide) rfl rfl rfl
    (by decide) rfl rfl (by decide)

/-! Helpers for the per-instance isolation claim. -/

/-- Any memoizer `descrGet` returns for instance `x` weakly references `x`,
assuming any memoizer already stored does (`ownedBy`). -/
theorem descrGet_ownerId {K V E : Type} [DecidableEq K] (self : cached_method)
    (x : Nat) (inst : Instance K V) (name : String) (mz : Memoizer K V)
    (inst1 : Instance K V) (hname : self.methname = some name)
    (hwf : ownedBy name x inst)
    (hok : (self.descrGet x inst : Except (Err E) (Memoizer K V × Instance K V)) =
      Except.ok (mz, inst1)) :
    mz.ownerId = x := by
  rcases hd : inst.dict with _ | d
  · simp [cached_method.descrGet, hname, hd] at hok
  · rcases hk : lookupKey name d.entries with _ | m
    · by_cases hw : d.writable
      · simp [cached_method.descrGet, hname, hd, hk, hw] at hok
        rw [← hok.1]
      · simp [cached_method.descrGet, hname, hd, hk, hw] at hok
    · simp [cached_method.descrGet, hname, hd, hk] at hok
      rw [← hok.1]
      exact hwf d m hd hk

/-- Every underlying call the memoizer makes is attributed to its own
weakly referenced owner. -/
theorem call_log_owner {K V E : Type} [DecidableEq K] (alive : Nat → Bool)
    (op : Nat → K → Except E V) (m : Memoizer K V) (k : K) (p : Nat × K)
    (hp : p ∈ (Memoizer.call alive op m k).2.2) : p.1 = m.ownerId := by
  rcases hk : lookupKey k m.cache with _ | v
  · by_cases ha : alive m.ownerId
    · rcases ho : op m.ownerId k with e | v
      · simp [Memoizer.call, hk, ha, ho] at hp
        rw [hp]
      · simp [Memoizer.call, hk, ha, ho] at hp
        rw [hp]
    · simp [Memoizer.call, hk, ha] at hp
  · simp [Memoizer.call, hk] at hp

/-- `invoke1` either fails as `descrGet` does, leaving everything
untouched, or calls the memoizer `descrGet` returned and persists its new
state. -/
theorem invoke1_cases {K V E : Type} [DecidableEq K] (self : cached_method)
    (alive : Nat → Bool) (op : Nat → K → Except E V) (x : Nat)
    (inst : Instance K V) (k : K) (name : String)
    (hname : self.methname = some name) :
    (∃ e, (self.descrGet x inst : Except (Err E) (Memoizer K V × Instance K V)) =
        Except.error e
      ∧ self.invoke1 alive op x inst k = (Except.error e, inst, []))
    ∨ (∃ mz inst1,
        (self.descrGet x inst : Except (Err E) (Memoizer K V × Instance K V)) =
          Except.ok (mz, inst1)
      ∧ self.invoke1 alive op x inst k =
          ((Memoizer.call alive op mz k).1,
           inst1.setMemo name (Memoizer.call alive op mz k).2.1,
           (Memoizer.call alive op mz k).2.2)) := by
  cases hres : (self.descrGet x inst : Except (Err E) (Memoizer K V × Instance K V)) with
  | error e =>
      exact Or.inl ⟨e, rfl, invoke1_of_descrGet_error self alive op x inst k e hres⟩
  | ok pair =>
      obtain ⟨mz, inst1⟩ := pair
      exact Or.inr ⟨mz, inst1, rfl, by simp [cached_method.invoke1, hname, hres]⟩

/-- All underlying calls of one invocation on `x` are attributed to `x`. -/
theorem invoke1_log_owner {K V E : Type} [DecidableEq K] (self : cached_method)
    (alive : Nat → Bool) (op : Nat → K → Except E V) (x : Nat)
    (inst : Instance K V) (k : K) (name : String)
    (hname : self.methname = some name) (hwf : ownedBy name x inst) :
    ∀ p ∈ (self.invoke1 alive op x inst k).2.2, p.1 = x := by
  rcases invoke1_cases self alive op x inst k name hname with
    ⟨e, hd, heq⟩ | ⟨mz, inst1, hd, heq⟩
  · rw [heq]
    intro p hp
    simp at hp
  · rw [heq]
    intro p hp
    have hmo := descrGet_ownerId self x inst name mz inst1 hname hwf hd
    rw [call_log_owner alive op mz k p hp, hmo]

/-- One invocation on `x` preserves the `ownedBy` invariant. -/
theorem invoke1_ownedBy {K V E : Type} [DecidableEq K] (self : cached_method)
    (alive : Nat → Bool) (op : Nat → K → Except E V) (x : Nat)
    (inst : Instance K V) (k : K) (name : String)
    (hname : self.methname = some name) (hwf : ownedBy name x inst) :
    ownedBy name x (self.invoke1 alive op x inst k).2.1 := by
  rcases invoke1_cases self alive op x inst k name hname with
    ⟨e, hd, heq⟩ | ⟨mz, inst1, hd, heq⟩
  · rw [heq]
    exact hwf
  · rw [heq]
    have hmo : (Memoizer.call alive op mz k).2.1.ownerId = x := by
      rw [call_ownerId]
      exact descrGet_ownerId self x inst name mz inst1 hname hwf hd
    intro d2 m2 hd2 hk2
    rcases hd1 : inst1.dict with _ | d1
    · simp [Instance.setMemo, hd1] at hd2
    · simp [Instance.setMemo, InstDict.setEntry, hd1] at hd2
      rw [← hd2] at hk2
      simp [lookupKey] at hk2
      rw [← hk2]
      exact hmo

theorem invokeW_world_ne {K V E : Type} [DecidableEq K] (self : cached_method)
    (alive : Nat → Bool) (op : Nat → K → Except E V) (w : World K V)
    (x y : Nat) (k : K) (hxy : ¬ y = x) :
    (self.invokeW alive op w x k).2.1 y = w y := by
  simp [cached_method.invokeW]
  exact Function.update_noteq hxy _ w

theorem invokeSeq_world_ne {K V E : Type} [DecidableEq K] (self : cached_method)
    (alive : Nat → Bool) (op : Nat → K → Except E V) (x y : Nat)
    (hxy : ¬ y = x) :
    ∀ (ks : List K) (w : World K V),
      (self.invokeSeq alive op x w ks).1 y = w y := by
  intro ks
  induction ks with
  | nil => intro w; rfl
  | cons k ks ih =>
      intro w
      have hstep : (self.invokeSeq alive op x w (k :: ks)).1 =
          (self.invokeSeq alive op x (self.invokeW alive op w x k).2.1 ks).1 :=
        rfl
      rw [hstep, ih, invokeW_world_ne self alive op w x y k hxy]

theorem invokeSeq_log_owner {K V E : Type} [DecidableEq K]
    (self : cached_method) (alive : Nat → Bool) (op : Nat → K → Except E V)
    (x : Nat) (name : String) (hname : self.methname = some name) :
    ∀ (ks : List K) (w : World K V), ownedBy name x (w x) →
      ∀ p ∈ (self.invokeSeq alive op x w ks).2, p.1 = x := by
  intro ks
  induction ks with
  | nil =>
      intro w hwf p hp
      simp [cached_method.invokeSeq] at hp
  | cons k ks ih =>
      intro w hwf p hp
      have hstep : (self.invokeSeq alive op x w (k :: ks)).2 =
          (self.invokeW alive op w x k).2.2 ++
          (self.invokeSeq alive op x (self.invokeW alive op w x k).2.1 ks).2 :=
        rfl
      rw [hstep] at hp
      rcases List.mem_append.mp hp with h | h
      · rw [invokeW_log] at h
        exact invoke1_log_owner self alive op x (w x) k name hname hwf p h
      · refine ih (self.invokeW alive op w x k).2.1 ?_ p h
        rw [invokeW_world_self]
        exact invoke1_ownedBy self alive op x (w x) k name hname hwf

/-- The result and call log of an invocation on `y` depend only on `y`'s
own attribute store. -/
theorem invokeW_congr {K V E : Type} [DecidableEq K] (self : cached_method)
    (alive : Nat → Bool) (op : Nat → K → Except E V) (w1 w2 : World K V)
    (y : Nat) (k : K) (h : w1 y = w2 y) :
    (self.invokeW alive op w1 y k).1 = (self.invokeW alive op w2 y k).1
    ∧ (self.invokeW alive op w1 y k).2.2 =
        (self.invokeW alive op w2 y k).2.2 := by
  constructor
  · rw [invokeW_fst, invokeW_fst, h]
  · rw [invokeW_log, invokeW_log, h]

/-- C3: any sequence of cached invocations on instance `x` leaves a
different instance `y`'s attribute store unchanged, makes zero underlying
calls attributable to `y`, and leaves the result and call log of a
subsequent invocation on `y` exactly as they would have been. -/
theorem per_instance_isolation {K V E : Type} [DecidableEq K]
    (self : cached_method) (alive : Nat → Bool) (op : Nat → K → Except E V)
    (w : World K V) (x y : Nat) (name : String) (ks : List K) (k2 : K)
    (hxy : ¬ y = x) (hname : self.methname = some name)
    (hwf : ownedBy name x (w x)) :
    (self.invokeSeq alive op x w ks).1 y = w y
    ∧ ((self.invokeSeq alive op x w ks).2.filter (fun p => p.1 = y)) = []
    ∧ (self.invokeW alive op (self.invokeSeq alive op x w ks).1 y k2).1 =
        (self.invokeW alive op w y k2).1
    ∧ (self.invokeW alive op (self.invokeSeq alive op x w ks).1 y k2).2.2 =
        (self.invokeW alive op w y k2).2.2 := by
  have hA := invokeSeq_world_ne self alive op x y hxy ks w
  have hlog := invokeSeq_log_owner self alive op x name hname ks w hwf
  have hcg := invokeW_congr self alive op (self.invokeSeq alive op x w ks).1
    w y k2 hA
  refine ⟨hA, ?_, hcg.1, hcg.2⟩
  rw [List.filter_eq_nil_iff]
  intro p hp
  simp only [decide_eq_true_eq]
  intro hpy
  exact hxy (hpy.symm.trans (hlog p hp))

/-- C3 witness: calls on instance 0 (keys 5 and 6) leave instance 1's
store, attributable call count, and observable behaviour unchanged. -/
theorem per_instance_isolation_witness :
    (descr0.invokeSeq aliveAll opOk 0 w0 [5, 6]).1 1 = w0 1
    ∧ ((descr0.invokeSeq aliveAll opOk 0 w0 [5, 6]).2.filter
        (fun p => p.1 = 1)) = []
    ∧ (descr0.invokeW aliveAll opOk
        (descr0.invokeSeq aliveAll opOk 0 w0 [5, 6]).1 1 5).1 =
        (descr0.invokeW aliveAll opOk w0 1 5).1
    ∧ (descr0.invokeW aliveAll opOk
        (descr0.invokeSeq aliveAll opOk 0 w0 [5, 6]).1 1 5).2.2 =
        (descr0.invokeW aliveAll opOk w0 1 5).2.2 :=
  per_instance_isolation descr0 aliveAll opOk w0 0 1 "f" [5, 6] 5
    (by decide) rfl
    (by
      intro d m hd hm
      have hdd : dict0 = d := by simpa [w0, inst0] using hd
      rw [← hdd] at hm
      simp [dict0, lookupKey] at hm)

end CachedMethod
